import Mathlib

/-!
Shallow embedding of the Parquet modular-encryption core of this repository
(`parquet/src/encryption/ciphers.rs` and `parquet/src/encryption/encrypt.rs`),
together with proofs about its documented behaviour.

Conventions of the embedding:
* Byte buffers (`Vec<u8>`, `&[u8]`) are `List Nat`, least significant byte
  first where an integer is serialized.
* Machine integers are `Nat` (unsigned) or `Int` (signed) with explicit
  `% 2 ^ w` where wrap-around matters (`u128::wrapping_add`, `usize as i32`).
* Code that can panic (`unwrap`, slice underflow) is modelled as an
  `Option`-returning function, `none` standing for the panic.
* Fallible code returning `Result<T, ParquetError>` becomes `Except`.
* The AES-128-GCM primitive itself lives in the external `ring` crate, not in
  this repository.  It is kept abstract: functions `ksByte` (the CTR
  keystream) and `gcmTag` (the authentication tag over nonce, AAD and
  ciphertext) are explicit parameters of `encrypt`/`decrypt`.  Everything the
  repository's own code does — framing, nonce management, length prefix,
  tag placement and verification — is translated from the source.
-/

namespace ParquetCrypto

/-- Little-endian byte encoding: `leBytes k n` is the `k` low bytes of `n`,
least significant first.  Mirrors Rust `to_le_bytes` (truncated to `k`
bytes, as in `counter.to_le_bytes()[0..12]`). -/
def leBytes : Nat → Nat → List Nat
  | 0, _ => []
  | k + 1, n => n % 256 :: leBytes k (n / 256)

/-- Little-endian read of a byte list as an unsigned integer. -/
def readLEu (l : List Nat) : Nat := l.foldr (fun b acc => b + 256 * acc) 0

/-- Read the first four bytes of a buffer as a little-endian signed 32-bit
integer (two's complement), as `i32::from_le_bytes` would. -/
def readLEi32 (l : List Nat) : Int :=
  if readLEu (l.take 4) < 2 ^ 31 then (readLEu (l.take 4) : Int)
  else (readLEu (l.take 4) : Int) - 2 ^ 32

/-- Two's-complement little-endian encoding of an `i16` value
(`(x as i16).to_le_bytes()`). -/
def le16 (x : Int) : List Nat := leBytes 2 (x % 65536).toNat

/-- `RIGHT_TWELVE` from `ciphers.rs`: the `u128` mask keeping the low 96
bits. -/
def RIGHT_TWELVE : Nat := 0x00000000ffffffffffffffffffffffff

/-- `NONCE_LEN` from `ciphers.rs`. -/
def NONCE_LEN : Nat := 12

/-- `TAG_LEN` from `ciphers.rs`. -/
def TAG_LEN : Nat := 16

/-- `SIZE_LEN` from `ciphers.rs`. -/
def SIZE_LEN : Nat := 4

/-- `NON_PAGE_ORDINAL` from `ciphers.rs`. -/
def NON_PAGE_ORDINAL : Int := -1

/-- `CounterNonce` from `ciphers.rs`: two `u128` fields, modelled as `Nat`
(kept below `2 ^ 128` by the operations). -/
structure CounterNonce where
  start : Nat
  counter : Nat
deriving DecidableEq

/-- `CounterNonce::new`.  The parameter `seed` models the value
`u128::from_ne_bytes(buf)` obtained from 16 random bytes; the source then
masks it with `RIGHT_TWELVE` and sets `counter = start.wrapping_add(1)`. -/
def CounterNonce.new (seed : Nat) : CounterNonce :=
  let start := (seed % 2 ^ 128) &&& RIGHT_TWELVE
  { start := start, counter := (start + 1) % 2 ^ 128 }

/-- `CounterNonce::get_bytes`: `counter.to_le_bytes()[0..NONCE_LEN]`. -/
def CounterNonce.get_bytes (s : CounterNonce) : List Nat :=
  leBytes NONCE_LEN s.counter

/-- The `NonceSequence::advance` implementation for `CounterNonce`: fail
(with `ring::error::Unspecified`, `none` here) once the counter wraps back
to `start` modulo `2 ^ 96`, otherwise emit `get_bytes` and advance the
counter with `u128::wrapping_add(1)`. -/
def CounterNonce.advance (s : CounterNonce) : Option (List Nat × CounterNonce) :=
  if s.counter &&& RIGHT_TWELVE = s.start &&& RIGHT_TWELVE then none
  else some (s.get_bytes, { start := s.start, counter := (s.counter + 1) % 2 ^ 128 })

/-- Apply `advance` repeatedly, `n` times, keeping only the final state;
`none` if any step fails.  (Harness for counting how many nonces a
`CounterNonce` can emit.) -/
def emitN : Nat → CounterNonce → Option CounterNonce
  | 0, s => some s
  | k + 1, s =>
    match s.advance with
    | none => none
    | some (_, s2) => emitN k s2

/-- `RingGcmBlockEncryptor` from `ciphers.rs`: an AES-128-GCM key plus the
counter nonce sequence it owns. -/
structure RingGcmBlockEncryptor where
  key : List Nat
  nonce_sequence : CounterNonce
deriving DecidableEq

/-- XOR a byte list with a keystream starting at keystream index `i` — the
CTR layer of GCM, used to model `ring`'s in-place seal/open of the
plaintext/ciphertext region. -/
def xorKs (ks : Nat → Nat) : Nat → List Nat → List Nat
  | _, [] => []
  | i, b :: bs => (b ^^^ ks i) :: xorKs ks (i + 1) bs

/-- `RingGcmBlockEncryptor::encrypt` from `ciphers.rs`.

Translated from the source: advance the nonce (`unwrap` panic on exhaustion
modelled as `none`), build `size ++ nonce ++ plaintext`, seal the plaintext
region in place and append the 16-byte tag.  The length prefix is
`(ciphertext_len as i32).to_le_bytes()`, i.e. the low 4 bytes of
`plaintext.len() + NONCE_LEN + TAG_LEN`.

Modelled from the spec (the AES-128-GCM internals are in the external
`ring` crate): sealing turns the plaintext into a same-length ciphertext by
XOR with a key/nonce-determined keystream `ksByte`, and the tag is a
128-bit value `gcmTag key nonce aad ciphertext` serialized little-endian —
the spec commits to "ciphertext of length N" and "the tag is GCM's
authentication tag over (AAD, ciphertext) using the 12-byte nonce". -/
def RingGcmBlockEncryptor.encrypt (ksByte : List Nat → List Nat → Nat → Nat)
    (gcmTag : List Nat → List Nat → List Nat → List Nat → Nat)
    (s : RingGcmBlockEncryptor) (plaintext aad : List Nat) :
    Option (List Nat × RingGcmBlockEncryptor) :=
  match s.nonce_sequence.advance with
  | none => none
  | some (nonce, ns) =>
    let ciphertext_len := plaintext.length + NONCE_LEN + TAG_LEN
    let ct := xorKs (ksByte s.key nonce) 0 plaintext
    some (leBytes SIZE_LEN (ciphertext_len % 2 ^ 32) ++ nonce ++ ct
            ++ leBytes TAG_LEN (gcmTag s.key nonce aad ct),
          { s with nonce_sequence := ns })

/-- `RingGcmBlockDecryptor` from `ciphers.rs`. -/
structure RingGcmBlockDecryptor where
  key : List Nat
deriving DecidableEq

/-- `RingGcmBlockDecryptor::new`: `UnboundKey::new(&AES_128_GCM, key_bytes)`
succeeds exactly for a 16-byte key; the source `unwrap`s the result, so a
wrong-length key is a panic (`none`). -/
def RingGcmBlockDecryptor.new (key_bytes : List Nat) : Option RingGcmBlockDecryptor :=
  if key_bytes.length = 16 then some { key := key_bytes } else none

/-- `RingGcmBlockDecryptor::decrypt` from `ciphers.rs`.

Translated from the source: copy `frame[SIZE_LEN + NONCE_LEN ..]`
(ciphertext ++ tag) into a scratch buffer, take the nonce from
`frame[SIZE_LEN .. SIZE_LEN + NONCE_LEN]`, `open_in_place` with the given
AAD, then truncate the trailing `TAG_LEN` bytes.  A frame shorter than
`SIZE_LEN + NONCE_LEN + TAG_LEN` makes the capacity computation underflow
and panic (`none`); `open_in_place(..).unwrap()` panics on any
authentication failure (`none`) — the source returns a plain `Vec<u8>` and
has no error channel at all.

Modelled from the spec (`ring` internals): opening recomputes
`gcmTag key nonce aad ciphertext`, compares it with the stored tag, and on
success XORs the ciphertext with the same keystream used by sealing. -/
def RingGcmBlockDecryptor.decrypt (ksByte : List Nat → List Nat → Nat → Nat)
    (gcmTag : List Nat → List Nat → List Nat → List Nat → Nat)
    (d : RingGcmBlockDecryptor) (length_and_ciphertext aad : List Nat) :
    Option (List Nat) :=
  if length_and_ciphertext.length < SIZE_LEN + NONCE_LEN + TAG_LEN then none
  else
    let nonce := (length_and_ciphertext.drop SIZE_LEN).take NONCE_LEN
    let ct_tag := length_and_ciphertext.drop (SIZE_LEN + NONCE_LEN)
    let ct := ct_tag.take (ct_tag.length - TAG_LEN)
    if ct_tag.drop (ct_tag.length - TAG_LEN) = leBytes TAG_LEN (gcmTag d.key nonce aad ct)
    then some (xorKs (ksByte d.key nonce) 0 ct)
    else none

/-- `ModuleType` from `ciphers.rs`. -/
inductive ModuleType where
  | footer
  | columnMetaData
  | dataPage
  | dictionaryPage
  | dataPageHeader
  | dictionaryPageHeader
  | columnIndex
  | offsetIndex
  | bloomFilterHeader
  | bloomFilterBitset
deriving DecidableEq

/-- The discriminant byte of a `ModuleType` (`module_type as u8`). -/
def ModuleType.tag : ModuleType → Nat
  | .footer => 0
  | .columnMetaData => 1
  | .dataPage => 2
  | .dictionaryPage => 3
  | .dataPageHeader => 4
  | .dictionaryPageHeader => 5
  | .columnIndex => 6
  | .offsetIndex => 7
  | .bloomFilterHeader => 8
  | .bloomFilterBitset => 9

/-- The distinct `ParquetError` values produced by the encryption core.  The
source code builds them all with `general_err!`; each constructor below
stands for one distinct message site (§7 of the spec gives them the names
`AadOrdinalError`, `CryptoSetupError`, `UnencryptedColumnError`). -/
inductive ParquetError where
  | wrongRowGroupOrdinal (rg : Int)
  | tooManyRowGroups (rg : Int)
  | wrongColumnOrdinal (c : Int)
  | tooManyColumns (c : Int)
  | wrongPageOrdinal (p : Int)
  | tooManyPages (p : Int)
  | cryptoSetup
  | unencryptedColumn (path : String)
deriving DecidableEq

/-- `create_module_aad` from `ciphers.rs`, translated branch by branch.
`row_group_ordinal` and `column_ordinal` are `i16` in the source,
`page_ordinal` is `i32`; all are modelled as `Int` (the `i16` range
`-2^15 ≤ x ≤ 2^15 - 1` is an implicit invariant of the first two). -/
def create_module_aad (file_aad : List Nat) (module_type : ModuleType)
    (row_group_ordinal column_ordinal page_ordinal : Int) :
    Except ParquetError (List Nat) :=
  if module_type.tag = ModuleType.footer.tag then
    .ok (file_aad ++ [module_type.tag])
  else if row_group_ordinal < 0 then
    .error (.wrongRowGroupOrdinal row_group_ordinal)
  else if row_group_ordinal > 32767 then
    .error (.tooManyRowGroups row_group_ordinal)
  else if column_ordinal < 0 then
    .error (.wrongColumnOrdinal column_ordinal)
  else if column_ordinal > 32767 then
    .error (.tooManyColumns column_ordinal)
  else if module_type.tag ≠ ModuleType.dataPageHeader.tag ∧
      module_type.tag ≠ ModuleType.dataPage.tag then
    .ok (file_aad ++ [module_type.tag] ++ le16 row_group_ordinal ++ le16 column_ordinal)
  else if page_ordinal < 0 then
    .error (.wrongPageOrdinal page_ordinal)
  else if page_ordinal > 32767 then
    .error (.tooManyPages page_ordinal)
  else
    .ok (file_aad ++ [module_type.tag] ++ le16 row_group_ordinal ++ le16 column_ordinal
          ++ le16 page_ordinal)

/-- `create_footer_aad` from `ciphers.rs`. -/
def create_footer_aad (file_aad : List Nat) : Except ParquetError (List Nat) :=
  create_module_aad file_aad .footer (-1) (-1) NON_PAGE_ORDINAL

/-- `FileDecryptionProperties` from `ciphers.rs`: only an optional footer
key. -/
structure FileDecryptionProperties where
  footer_key : Option (List Nat)
deriving DecidableEq

/-- `FileDecryptor` from `ciphers.rs`.  The source field `aad_prefix` is
named `aadPrefixBytes` here. -/
structure FileDecryptor where
  decryption_properties : FileDecryptionProperties
  footer_decryptor : RingGcmBlockDecryptor
  aad_file_unique : List Nat
  aadPrefixBytes : List Nat
deriving DecidableEq

/-- `FileDecryptor::new` from `ciphers.rs`: the source unconditionally
`unwrap`s `decryption_properties.footer_key` (panic when absent, `none`
here) and then builds the footer decryptor, whose constructor panics on a
wrong-length key. -/
def FileDecryptor.new (decryption_properties : FileDecryptionProperties)
    (aad_file_unique aadPrefixBytes : List Nat) : Option FileDecryptor :=
  match decryption_properties.footer_key with
  | none => none
  | some key =>
    (RingGcmBlockDecryptor.new key).map fun d =>
      { decryption_properties := decryption_properties
        footer_decryptor := d
        aad_file_unique := aad_file_unique
        aadPrefixBytes := aadPrefixBytes }

/-- `FileDecryptor::update_aad` from `ciphers.rs`, translated as written:
it ignores its `aad` argument, computes a module AAD from the current
`aad_file_unique` (the `unwrap` panic on an ordinal error is `none`), and
stores that module AAD back into the `aad_file_unique` field. -/
def FileDecryptor.update_aad (d : FileDecryptor) (_aad : List Nat)
    (row_group_ordinal column_ordinal : Int) (module_type : ModuleType) :
    Option FileDecryptor :=
  match create_module_aad d.aad_file_unique module_type row_group_ordinal
      column_ordinal NON_PAGE_ORDINAL with
  | .error _ => none
  | .ok a => some { d with aad_file_unique := a }

/-- `EncryptionKey` from `encrypt.rs`. -/
structure EncryptionKey where
  key : List Nat
  key_metadata : Option (List Nat)
deriving DecidableEq

/-- `FileEncryptionProperties` from `encrypt.rs`.  The `HashMap` of column
keys is modelled as an association list looked up by column-path string;
the source fields `aad_prefix` / `store_aad_prefix` are named
`aadPrefixOpt` / `storeAadPrefixFlag` here. -/
structure FileEncryptionProperties where
  encrypt_footer : Bool
  footer_key : EncryptionKey
  column_keys : List (String × EncryptionKey)
  aadPrefixOpt : Option (List Nat)
  storeAadPrefixFlag : Bool
deriving DecidableEq

/-- `FileEncryptor` from `encrypt.rs`. -/
structure FileEncryptor where
  properties : FileEncryptionProperties
  aad_file_unique : List Nat
  file_aad : List Nat
deriving DecidableEq

/-- `FileEncryptor::new` from `encrypt.rs`.  The 8 random bytes drawn from
`SystemRandom` into `aad_file_unique` are the parameter `rand8`; `file_aad`
is the AAD prefix (when present) concatenated with `aad_file_unique`. -/
def FileEncryptor.new (properties : FileEncryptionProperties) (rand8 : List Nat) :
    FileEncryptor :=
  { properties := properties
    aad_file_unique := rand8
    file_aad :=
      match properties.aadPrefixOpt with
      | none => rand8
      | some p => p ++ rand8 }

/-- `FileEncryptor::is_column_encrypted` from `encrypt.rs`: uniform
encryption when the column-key map is empty, otherwise map membership. -/
def FileEncryptor.is_column_encrypted (e : FileEncryptor) (column_path : String) : Bool :=
  if e.properties.column_keys.isEmpty then true
  else (e.properties.column_keys.lookup column_path).isSome

/-- `RingGcmBlockEncryptor::new` as used by `encrypt.rs` (fallible, `?`):
`UnboundKey::new(&AES_128_GCM, key_bytes)` demands a 16-byte key, and a
fresh `CounterNonce` is drawn from the RNG (its 16 random seed bytes are
the parameter `seed`). -/
def RingGcmBlockEncryptor.new (key_bytes : List Nat) (seed : Nat) :
    Except ParquetError RingGcmBlockEncryptor :=
  if key_bytes.length = 16 then
    .ok { key := key_bytes, nonce_sequence := CounterNonce.new seed }
  else .error .cryptoSetup

/-- `FileEncryptor::get_footer_encryptor` from `encrypt.rs`: a fresh block
encryptor over the footer key. -/
def FileEncryptor.get_footer_encryptor (e : FileEncryptor) (seed : Nat) :
    Except ParquetError RingGcmBlockEncryptor :=
  RingGcmBlockEncryptor.new e.properties.footer_key.key seed

/-- `FileEncryptor::get_column_encryptor` from `encrypt.rs`: footer key in
uniform mode; otherwise the configured column key, or the
"Column .. is not encrypted" error for a column absent from the map. -/
def FileEncryptor.get_column_encryptor (e : FileEncryptor) (column_path : String)
    (seed : Nat) : Except ParquetError RingGcmBlockEncryptor :=
  if e.properties.column_keys.isEmpty then e.get_footer_encryptor seed
  else
    match e.properties.column_keys.lookup column_path with
    | none => .error (.unencryptedColumn column_path)
    | some column_key => RingGcmBlockEncryptor.new column_key.key seed

/-- `ColumnCryptoMetaData` (defined in `file/column_crypto_metadata.rs`,
which is not among the provided sources).  Modelled from the spec: a tagged
variant with cases `EncryptionWithFooterKey` and
`EncryptionWithColumnKey { path_in_schema, key_metadata }`. -/
inductive ColumnCryptoMetaData where
  | encryptionWithFooterKey
  | encryptionWithColumnKey (path_in_schema : List String)
      (key_metadata : Option (List Nat))
deriving DecidableEq

/-- Modelled from the spec: the column descriptor (`ColumnDescPtr`, defined
outside the provided sources) exposes its schema path; `path().parts()` is
the component list and `path().string()` joins the parts with `.`. -/
structure ColumnDescPtr where
  pathParts : List String
deriving DecidableEq

/-- The dotted column-path string used as the key of the column-key map. -/
def ColumnDescPtr.pathString (c : ColumnDescPtr) : String :=
  String.intercalate "." c.pathParts

/-- `get_column_crypto_metadata` from `encrypt.rs`. -/
def get_column_crypto_metadata (properties : FileEncryptionProperties)
    (column : ColumnDescPtr) : Option ColumnCryptoMetaData :=
  if properties.column_keys.isEmpty then some .encryptionWithFooterKey
  else
    (properties.column_keys.lookup column.pathString).map fun encryption_key =>
      .encryptionWithColumnKey column.pathParts encryption_key.key_metadata

/-- A concrete uniform-mode configuration (footer key only, no column
keys), used to evaluate the development on closed inputs. -/
def uniformProps : FileEncryptionProperties :=
  { encrypt_footer := true
    footer_key := { key := List.replicate 16 0, key_metadata := none }
    column_keys := []
    aadPrefixOpt := none
    storeAadPrefixFlag := true }

/-- A concrete selective-mode configuration with one column key for
`col_a`, used to evaluate the development on closed inputs. -/
def selectiveProps : FileEncryptionProperties :=
  { encrypt_footer := true
    footer_key := { key := List.replicate 16 0, key_metadata := none }
    column_keys := [("col_a", { key := List.replicate 16 7, key_metadata := some [1] })]
    aadPrefixOpt := none
    storeAadPrefixFlag := true }

/-- A `FileEncryptor` over `uniformProps`. -/
def uniformEnc : FileEncryptor :=
  FileEncryptor.new uniformProps [8, 8, 8, 8, 8, 8, 8, 8]

/-- A `FileEncryptor` over `selectiveProps`. -/
def selectiveEnc : FileEncryptor :=
  FileEncryptor.new selectiveProps [8, 8, 8, 8, 8, 8, 8, 8]

/-! ## General lemmas about the byte-level helpers -/

@[simp]
theorem leBytes_length : ∀ k n : Nat, (leBytes k n).length = k
  | 0, _ => rfl
  | k + 1, n => by simp [leBytes, leBytes_length k (n / 256)]

theorem leBytes_getD : ∀ (k n i : Nat), i < k → (leBytes k n).getD i 0 = n / 256 ^ i % 256
  | k + 1, n, 0, _ => by simp [leBytes]
  | k + 1, n, i + 1, h => by
    have hstep : n / 256 / 256 ^ i = n / 256 ^ (i + 1) := by
      rw [Nat.div_div_eq_div_mul]
      congr 1
      rw [pow_succ]
      ring
    simp only [leBytes, List.getD_cons_succ]
    rw [leBytes_getD k (n / 256) i (by omega), hstep]

theorem readLEu_leBytes : ∀ k n : Nat, readLEu (leBytes k n) = n % 256 ^ k
  | 0, n => by simp [leBytes, readLEu, Nat.mod_one]
  | k + 1, n => by
    have ih := readLEu_leBytes k (n / 256)
    simp only [leBytes, readLEu, List.foldr_cons] at ih ⊢
    rw [ih]
    have hsplit : (256 : Nat) ^ (k + 1) = 256 * 256 ^ k := by
      rw [pow_succ]; ring
    rw [hsplit, Nat.mod_mul]

@[simp]
theorem xorKs_length (ks : Nat → Nat) : ∀ (i : Nat) (p : List Nat),
    (xorKs ks i p).length = p.length
  | _, [] => rfl
  | i, _ :: bs => by simp [xorKs, xorKs_length ks (i + 1) bs]

theorem xorKs_xorKs (ks : Nat → Nat) : ∀ (i : Nat) (p : List Nat),
    xorKs ks i (xorKs ks i p) = p
  | _, [] => rfl
  | i, b :: bs => by
    simp [xorKs, xorKs_xorKs ks (i + 1) bs, Nat.xor_cancel_right]

theorem and_mask_eq_mod (x : Nat) : x &&& RIGHT_TWELVE = x % 2 ^ 96 := by
  have h : RIGHT_TWELVE = 2 ^ 96 - 1 := by norm_num [RIGHT_TWELVE]
  rw [h, Nat.and_pow_two_sub_one_eq_mod]

theorem add_mod_pow_ne (a m : Nat) (h1 : 0 < m) (h2 : m < 2 ^ 96) :
    (a + m) % 2 ^ 96 ≠ a % 2 ^ 96 := by
  intro h
  have hmod : Nat.ModEq (2 ^ 96) a (a + m) := h.symm
  have hdvd : 2 ^ 96 ∣ m := by
    have := (Nat.modEq_iff_dvd' (Nat.le_add_right a m)).mp hmod
    simpa using this
  have := Nat.le_of_dvd h1 hdvd
  omega

/-- If the key of an association list is found, the found pair is a member
of the list. -/
theorem lookup_mem {β : Type} : ∀ {l : List (String × β)} {a : String} {v : β},
    List.lookup a l = some v → (a, v) ∈ l
  | [], _, _, h => by simp [List.lookup] at h
  | (k, b) :: t, a, v, h => by
    by_cases hk : a == k
    · have hak : a = k := by simpa using hk
      simp [List.lookup, hk] at h
      simp [hak, h]
    · simp [List.lookup, hk] at h
      exact List.mem_cons_of_mem _ (lookup_mem h)

/-! ## Lemmas about `CounterNonce` -/

theorem advance_eq_none_iff (s : CounterNonce) :
    s.advance = none ↔ s.counter % 2 ^ 96 = s.start % 2 ^ 96 := by
  unfold CounterNonce.advance
  rw [and_mask_eq_mod, and_mask_eq_mod]
  by_cases h : s.counter % 2 ^ 96 = s.start % 2 ^ 96
  · simp [h]
  · simp [h]

theorem advance_eq_some (s : CounterNonce) (h : s.counter % 2 ^ 96 ≠ s.start % 2 ^ 96) :
    s.advance = some (leBytes 12 s.counter,
      { start := s.start, counter := (s.counter + 1) % 2 ^ 128 }) := by
  unfold CounterNonce.advance
  rw [and_mask_eq_mod, and_mask_eq_mod, if_neg h]
  rfl

theorem new_start_lt (seed : Nat) : (CounterNonce.new seed).start < 2 ^ 96 := by
  unfold CounterNonce.new
  rw [and_mask_eq_mod]
  exact Nat.mod_lt _ (by norm_num)

theorem new_counter_eq (seed : Nat) :
    (CounterNonce.new seed).counter = (CounterNonce.new seed).start + 1 := by
  show ((seed % 2 ^ 128 &&& RIGHT_TWELVE) + 1) % 2 ^ 128 = (seed % 2 ^ 128 &&& RIGHT_TWELVE) + 1
  rw [and_mask_eq_mod]
  have h : seed % 2 ^ 128 % 2 ^ 96 < 2 ^ 96 := Nat.mod_lt _ (by norm_num)
  have hp : (2 : Nat) ^ 96 + 1 ≤ 2 ^ 128 := by norm_num
  exact Nat.mod_eq_of_lt (by omega)

theorem emitN_add_state : ∀ (k j : Nat) (s : CounterNonce), s.start < 2 ^ 96 →
    s.counter = s.start + 1 + j → j + k ≤ 2 ^ 96 - 1 →
    emitN k s = some { start := s.start, counter := s.start + 1 + j + k }
  | 0, j, s, _, hc, _ => by
    obtain ⟨st, co⟩ := s
    simp only at hc
    simp [emitN, hc]
  | k + 1, j, s, hs, hc, hk => by
    have hp96 : (0 : Nat) < 2 ^ 96 := by norm_num
    have hne : s.counter % 2 ^ 96 ≠ s.start % 2 ^ 96 := by
      rw [hc, Nat.add_assoc]
      exact add_mod_pow_ne s.start (1 + j) (by omega) (by omega)
    have hadv := advance_eq_some s hne
    have hc2 : (s.counter + 1) % 2 ^ 128 = s.start + 1 + (j + 1) := by
      have hp : (2 : Nat) ^ 96 + 2 ^ 96 ≤ 2 ^ 128 := by norm_num
      have hlt : s.counter + 1 < 2 ^ 128 := by omega
      rw [Nat.mod_eq_of_lt hlt, hc]
      ring
    have ih := emitN_add_state k (j + 1)
      { start := s.start, counter := (s.counter + 1) % 2 ^ 128 }
      hs hc2 (by omega)
    rw [emitN, hadv]
    show emitN k { start := s.start, counter := (s.counter + 1) % 2 ^ 128 } =
      some { start := s.start, counter := s.start + 1 + j + (k + 1) }
    have harith : s.start + 1 + (j + 1) + k = s.start + 1 + j + (k + 1) := by omega
    rw [ih, harith]

/-! ## Normal forms of `encrypt` and `decrypt` -/

/-- On a non-exhausted nonce sequence, `encrypt` produces exactly the frame
`size(4) ++ nonce(12) ++ ciphertext ++ tag(16)` and advances the counter. -/
theorem encrypt_eq (ksByte : List Nat → List Nat → Nat → Nat)
    (gcmTag : List Nat → List Nat → List Nat → List Nat → Nat)
    (key : List Nat) (s : CounterNonce) (p aad : List Nat)
    (hs : s.counter % 2 ^ 96 ≠ s.start % 2 ^ 96) :
    RingGcmBlockEncryptor.encrypt ksByte gcmTag ⟨key, s⟩ p aad =
      some (leBytes SIZE_LEN ((p.length + NONCE_LEN + TAG_LEN) % 2 ^ 32)
              ++ leBytes NONCE_LEN s.counter
              ++ xorKs (ksByte key (leBytes NONCE_LEN s.counter)) 0 p
              ++ leBytes TAG_LEN (gcmTag key (leBytes NONCE_LEN s.counter) aad
                   (xorKs (ksByte key (leBytes NONCE_LEN s.counter)) 0 p)),
            ⟨key, ⟨s.start, (s.counter + 1) % 2 ^ 128⟩⟩) := by
  unfold RingGcmBlockEncryptor.encrypt
  rw [show (⟨key, s⟩ : RingGcmBlockEncryptor).nonce_sequence = s from rfl,
    advance_eq_some s hs]
  rfl

/-- `decrypt` on a well-shaped frame: extract the nonce, recompute and
compare the tag, and XOR back on success. -/
theorem decrypt_append (ksByte : List Nat → List Nat → Nat → Nat)
    (gcmTag : List Nat → List Nat → List Nat → List Nat → Nat)
    (key a n c t aad : List Nat)
    (ha : a.length = SIZE_LEN) (hn : n.length = NONCE_LEN) (ht : t.length = TAG_LEN) :
    RingGcmBlockDecryptor.decrypt ksByte gcmTag ⟨key⟩ (a ++ (n ++ (c ++ t))) aad =
      if t = leBytes TAG_LEN (gcmTag key n aad c)
      then some (xorKs (ksByte key n) 0 c) else none := by
  have h32 : ¬ (a ++ (n ++ (c ++ t))).length < SIZE_LEN + NONCE_LEN + TAG_LEN := by
    simp only [List.length_append, ha, hn, ht, SIZE_LEN, NONCE_LEN, TAG_LEN]
    omega
  have hd4 : (a ++ (n ++ (c ++ t))).drop SIZE_LEN = n ++ (c ++ t) := List.drop_left' ha
  have hnonce : ((a ++ (n ++ (c ++ t))).drop SIZE_LEN).take NONCE_LEN = n := by
    rw [hd4]
    exact List.take_left' hn
  have hdrop16 : (a ++ (n ++ (c ++ t))).drop (SIZE_LEN + NONCE_LEN) = c ++ t := by
    rw [show a ++ (n ++ (c ++ t)) = (a ++ n) ++ (c ++ t) from
      (List.append_assoc a n (c ++ t)).symm]
    exact List.drop_left' (by simp [ha, hn])
  have hctlen : (c ++ t).length - TAG_LEN = c.length := by simp [ht]
  have hct : (c ++ t).take ((c ++ t).length - TAG_LEN) = c := by
    rw [hctlen]
    exact List.take_left c t
  have htag : (c ++ t).drop ((c ++ t).length - TAG_LEN) = t := by
    rw [hctlen]
    exact List.drop_left c t
  unfold RingGcmBlockDecryptor.decrypt
  rw [if_neg h32]
  simp only [hnonce, hdrop16, hct, htag]

/-- Claim C2: for every 16-byte key, every plaintext and every AAD (and any
behaviour of the underlying AES-128-GCM keystream and tag), decrypting the
frame produced by `encrypt` under the same key and AAD returns the original
plaintext. -/
theorem decrypt_encrypt_roundtrip (ksByte : List Nat → List Nat → Nat → Nat)
    (gcmTag : List Nat → List Nat → List Nat → List Nat → Nat)
    (key : List Nat) (s : CounterNonce) (p aad : List Nat)
    (hkey : key.length = 16)
    (hs : s.counter % 2 ^ 96 ≠ s.start % 2 ^ 96) :
    ∃ frame s2,
      RingGcmBlockEncryptor.encrypt ksByte gcmTag ⟨key, s⟩ p aad = some (frame, s2) ∧
      RingGcmBlockDecryptor.decrypt ksByte gcmTag ⟨key⟩ frame aad = some p := by
  refine ⟨_, _, encrypt_eq ksByte gcmTag key s p aad hs, ?_⟩
  rw [show leBytes SIZE_LEN ((p.length + NONCE_LEN + TAG_LEN) % 2 ^ 32)
        ++ leBytes NONCE_LEN s.counter
        ++ xorKs (ksByte key (leBytes NONCE_LEN s.counter)) 0 p
        ++ leBytes TAG_LEN (gcmTag key (leBytes NONCE_LEN s.counter) aad
             (xorKs (ksByte key (leBytes NONCE_LEN s.counter)) 0 p)) =
      leBytes SIZE_LEN ((p.length + NONCE_LEN + TAG_LEN) % 2 ^ 32)
        ++ (leBytes NONCE_LEN s.counter
          ++ (xorKs (ksByte key (leBytes NONCE_LEN s.counter)) 0 p
            ++ leBytes TAG_LEN (gcmTag key (leBytes NONCE_LEN s.counter) aad
                 (xorKs (ksByte key (leBytes NONCE_LEN s.counter)) 0 p)))) from
    by simp [List.append_assoc]]
  rw [decrypt_append ksByte gcmTag key _ _ _ _ aad (leBytes_length _ _)
    (leBytes_length _ _) (leBytes_length _ _)]
  rw [if_pos rfl, xorKs_xorKs]

/-- Witness for claim C2 at a concrete key, nonce state, plaintext and AAD. -/
theorem decrypt_encrypt_roundtrip_witness :
    ∃ frame s2,
      RingGcmBlockEncryptor.encrypt (fun _ _ _ => 0) (fun _ _ _ _ => 0)
        ⟨List.replicate 16 0, ⟨0, 1⟩⟩ [104, 105] [9, 9] = some (frame, s2) ∧
      RingGcmBlockDecryptor.decrypt (fun _ _ _ => 0) (fun _ _ _ _ => 0)
        ⟨List.replicate 16 0⟩ frame [9, 9] = some [104, 105] :=
  decrypt_encrypt_roundtrip _ _ _ _ _ _ (by decide) (by decide)

/-- Claim C3 (amended): `encrypt` always returns a frame of exactly
`4 + 12 + len(p) + 16` bytes; provided `12 + len(p) + 16 < 2 ^ 31`, the
first four bytes read as a little-endian `i32` equal `12 + len(p) + 16`
(the source casts a `usize` length with `as i32`, so larger plaintexts wrap
the prefix). -/
theorem encrypt_frame_format (ksByte : List Nat → List Nat → Nat → Nat)
    (gcmTag : List Nat → List Nat → List Nat → List Nat → Nat)
    (key : List Nat) (s : CounterNonce) (p aad : List Nat)
    (hs : s.counter % 2 ^ 96 ≠ s.start % 2 ^ 96) :
    ∃ frame s2,
      RingGcmBlockEncryptor.encrypt ksByte gcmTag ⟨key, s⟩ p aad = some (frame, s2) ∧
      frame.length = 4 + 12 + p.length + 16 ∧
      (12 + p.length + 16 < 2 ^ 31 →
        readLEi32 frame = 12 + (p.length : Int) + 16) := by
  refine ⟨_, _, encrypt_eq ksByte gcmTag key s p aad hs, ?_, ?_⟩
  · simp only [List.length_append, leBytes_length, xorKs_length,
      SIZE_LEN, NONCE_LEN, TAG_LEN]
  · intro hb
    have htake :
        (leBytes SIZE_LEN ((p.length + NONCE_LEN + TAG_LEN) % 2 ^ 32)
          ++ leBytes NONCE_LEN s.counter
          ++ xorKs (ksByte key (leBytes NONCE_LEN s.counter)) 0 p
          ++ leBytes TAG_LEN (gcmTag key (leBytes NONCE_LEN s.counter) aad
               (xorKs (ksByte key (leBytes NONCE_LEN s.counter)) 0 p))).take 4 =
        leBytes SIZE_LEN ((p.length + NONCE_LEN + TAG_LEN) % 2 ^ 32) := by
      simp only [List.append_assoc]
      exact List.take_left' (leBytes_length _ _)
    have hlt32 : p.length + NONCE_LEN + TAG_LEN < 2 ^ 32 := by
      have h1 : (2 : Nat) ^ 31 < 2 ^ 32 := by norm_num
      simp only [NONCE_LEN, TAG_LEN]
      omega
    have hval : (p.length + NONCE_LEN + TAG_LEN) % 2 ^ 32 % 256 ^ 4 =
        p.length + NONCE_LEN + TAG_LEN := by
      have h256 : (256 : Nat) ^ 4 = 2 ^ 32 := by norm_num
      rw [h256, Nat.mod_mod_of_dvd _ dvd_rfl, Nat.mod_eq_of_lt hlt32]
    have hsmall : p.length + NONCE_LEN + TAG_LEN < 2 ^ 31 := by
      simp only [NONCE_LEN, TAG_LEN]
      omega
    unfold readLEi32
    rw [htake, readLEu_leBytes]
    simp only [SIZE_LEN]
    rw [hval, if_pos hsmall]
    simp only [NONCE_LEN, TAG_LEN]
    push_cast
    ring

/-- Witness for claim C3's theorem at a concrete key, state, plaintext and
AAD. -/
theorem encrypt_frame_format_witness :
    ∃ frame s2,
      RingGcmBlockEncryptor.encrypt (fun _ _ _ => 0) (fun _ _ _ _ => 0)
        ⟨List.replicate 16 0, ⟨0, 1⟩⟩ [104, 105, 106] [1] = some (frame, s2) ∧
      frame.length = 4 + 12 + [104, 105, 106].length + 16 ∧
      (12 + [104, 105, 106].length + 16 < 2 ^ 31 →
        readLEi32 frame = 12 + ([104, 105, 106].length : Int) + 16) :=
  encrypt_frame_format _ _ _ _ _ _ (by decide)

/-- Claim C3 counterexample: on a plaintext of `2 ^ 31 - 28` bytes the
`usize as i32` cast wraps, and the four-byte prefix reads as `-2 ^ 31`
instead of `12 + len(p) + 16 = 2 ^ 31`. -/
theorem encrypt_length_prefix_wraps :
    ∃ r, RingGcmBlockEncryptor.encrypt (fun _ _ _ => 0) (fun _ _ _ _ => 0)
        ⟨List.replicate 16 0, ⟨0, 1⟩⟩ (List.replicate (2 ^ 31 - 28) 0) [] = some r ∧
      readLEi32 r.1 = -(2 ^ 31 : Int) ∧
      12 + (((List.replicate (2 ^ 31 - 28) (0 : Nat)).length : Int)) + 16 = 2 ^ 31 ∧
      -(2 ^ 31 : Int) ≠
        12 + (((List.replicate (2 ^ 31 - 28) (0 : Nat)).length : Int)) + 16 := by
  have hs : (⟨0, 1⟩ : CounterNonce).counter % 2 ^ 96 ≠
      (⟨0, 1⟩ : CounterNonce).start % 2 ^ 96 := by decide
  have hA := encrypt_eq (fun _ _ _ => 0) (fun _ _ _ _ => 0) (List.replicate 16 0)
    ⟨0, 1⟩ (List.replicate (2 ^ 31 - 28) 0) [] hs
  refine ⟨_, hA, ?_, ?_, ?_⟩
  · have hlen : (List.replicate (2 ^ 31 - 28) (0 : Nat)).length = 2 ^ 31 - 28 :=
      List.length_replicate _ _
    have hval : ((List.replicate (2 ^ 31 - 28) (0 : Nat)).length + NONCE_LEN + TAG_LEN)
        % 2 ^ 32 = 2 ^ 31 := by
      rw [hlen]
      norm_num [NONCE_LEN, TAG_LEN]
    have htake :
        (leBytes SIZE_LEN (((List.replicate (2 ^ 31 - 28) (0 : Nat)).length
            + NONCE_LEN + TAG_LEN) % 2 ^ 32)
          ++ leBytes NONCE_LEN (1 : Nat)
          ++ xorKs ((fun _ _ _ => 0) (List.replicate 16 (0 : Nat)) (leBytes NONCE_LEN 1)) 0
              (List.replicate (2 ^ 31 - 28) 0)
          ++ leBytes TAG_LEN ((fun _ _ _ _ => 0) (List.replicate 16 (0 : Nat))
              (leBytes NONCE_LEN 1) ([] : List Nat)
              (xorKs ((fun _ _ _ => 0) (List.replicate 16 (0 : Nat)) (leBytes NONCE_LEN 1)) 0
                (List.replicate (2 ^ 31 - 28) 0)))).take 4 =
        leBytes SIZE_LEN (((List.replicate (2 ^ 31 - 28) (0 : Nat)).length
          + NONCE_LEN + TAG_LEN) % 2 ^ 32) := by
      simp only [List.append_assoc]
      exact List.take_left' (leBytes_length _ _)
    unfold readLEi32
    rw [htake, hval, readLEu_leBytes]
    simp only [SIZE_LEN]
    norm_num
  · rw [List.length_replicate]
    norm_num
  · rw [List.length_replicate]
    norm_num

/-- Claim C4 (behaviour actually implemented): when decrypting under an AAD
whose recomputed tag differs from the stored one, `decrypt` produces no
value at all — the source `unwrap`s `open_in_place` and panics (`none`),
and its return type `Vec<u8>` has no error channel through which an
`AuthenticationFailed` error could be reported. -/
theorem decrypt_wrong_aad_panics (ksByte : List Nat → List Nat → Nat → Nat)
    (gcmTag : List Nat → List Nat → List Nat → List Nat → Nat)
    (key : List Nat) (s : CounterNonce) (p aad1 aad2 : List Nat)
    (hs : s.counter % 2 ^ 96 ≠ s.start % 2 ^ 96)
    (hne : leBytes TAG_LEN (gcmTag key (leBytes NONCE_LEN s.counter) aad1
             (xorKs (ksByte key (leBytes NONCE_LEN s.counter)) 0 p)) ≠
           leBytes TAG_LEN (gcmTag key (leBytes NONCE_LEN s.counter) aad2
             (xorKs (ksByte key (leBytes NONCE_LEN s.counter)) 0 p))) :
    ∃ frame s2,
      RingGcmBlockEncryptor.encrypt ksByte gcmTag ⟨key, s⟩ p aad1 = some (frame, s2) ∧
      RingGcmBlockDecryptor.decrypt ksByte gcmTag ⟨key⟩ frame aad2 = none := by
  refine ⟨_, _, encrypt_eq ksByte gcmTag key s p aad1 hs, ?_⟩
  rw [show leBytes SIZE_LEN ((p.length + NONCE_LEN + TAG_LEN) % 2 ^ 32)
        ++ leBytes NONCE_LEN s.counter
        ++ xorKs (ksByte key (leBytes NONCE_LEN s.counter)) 0 p
        ++ leBytes TAG_LEN (gcmTag key (leBytes NONCE_LEN s.counter) aad1
             (xorKs (ksByte key (leBytes NONCE_LEN s.counter)) 0 p)) =
      leBytes SIZE_LEN ((p.length + NONCE_LEN + TAG_LEN) % 2 ^ 32)
        ++ (leBytes NONCE_LEN s.counter
          ++ (xorKs (ksByte key (leBytes NONCE_LEN s.counter)) 0 p
            ++ leBytes TAG_LEN (gcmTag key (leBytes NONCE_LEN s.counter) aad1
                 (xorKs (ksByte key (leBytes NONCE_LEN s.counter)) 0 p)))) from
    by simp [List.append_assoc]]
  rw [decrypt_append ksByte gcmTag key _ _ _ _ aad2 (leBytes_length _ _)
    (leBytes_length _ _) (leBytes_length _ _)]
  rw [if_neg hne]

/-- Witness for claim C4's theorem: a concrete tag function distinguishing
the two AADs, concrete key, state, plaintext and AAD pair. -/
theorem decrypt_wrong_aad_panics_witness :
    ∃ frame s2,
      RingGcmBlockEncryptor.encrypt (fun _ _ _ => 0) (fun _ _ aad _ => readLEu aad)
        ⟨List.replicate 16 0, ⟨0, 1⟩⟩ [7] [1] = some (frame, s2) ∧
      RingGcmBlockDecryptor.decrypt (fun _ _ _ => 0) (fun _ _ aad _ => readLEu aad)
        ⟨List.replicate 16 0⟩ frame [2] = none :=
  decrypt_wrong_aad_panics _ _ _ _ _ _ _ (by decide) (by decide)

/-! ## Lemmas about `ModuleType` tags -/

theorem tag_eq_zero_iff (mt : ModuleType) : mt.tag = 0 ↔ mt = .footer := by
  cases mt <;> simp [ModuleType.tag]

theorem tag_eq_dataPage_iff (mt : ModuleType) :
    mt.tag = ModuleType.dataPage.tag ↔ mt = .dataPage := by
  cases mt <;> simp [ModuleType.tag]

theorem tag_eq_dataPageHeader_iff (mt : ModuleType) :
    mt.tag = ModuleType.dataPageHeader.tag ↔ mt = .dataPageHeader := by
  cases mt <;> simp [ModuleType.tag]

/-- Claim C1 counterexample: for a `DictionaryPage` module with in-range
ordinals the source emits only the 5-ordinal-byte suffix (module tag, row
group, column); the page ordinal is not appended, contrary to the claim
that all four page-module types carry a 7-ordinal-byte suffix. -/
theorem dictionary_page_aad_lacks_page_ordinal :
    create_module_aad [70, 73, 76, 69] .dictionaryPage 3 2 7 =
      .ok ([70, 73, 76, 69] ++ [3] ++ [3, 0] ++ [2, 0]) ∧
    ([70, 73, 76, 69] ++ [3] ++ [3, 0] ++ [2, 0] : List Nat) ≠
      [70, 73, 76, 69] ++ [3] ++ [3, 0] ++ [2, 0] ++ [7, 0] :=
  ⟨rfl, by decide⟩

/-- Claim C1 (amended): with in-range ordinals, `create_module_aad` appends
the full 7-ordinal-byte suffix (module tag, row group as LE `i16`, column
as LE `i16`, page as LE `i16`) only for `DataPage` and `DataPageHeader`;
`DictionaryPage` and `DictionaryPageHeader` receive the 5-byte suffix
without the page ordinal. -/
theorem create_module_aad_page_modules (file_aad : List Nat) (rg c p : Int)
    (hrg0 : 0 ≤ rg) (hrg1 : rg ≤ 32767) (hc0 : 0 ≤ c) (hc1 : c ≤ 32767)
    (hp0 : 0 ≤ p) (hp1 : p ≤ 32767) :
    create_module_aad file_aad .dataPage rg c p =
      .ok (file_aad ++ [2] ++ le16 rg ++ le16 c ++ le16 p) ∧
    create_module_aad file_aad .dataPageHeader rg c p =
      .ok (file_aad ++ [4] ++ le16 rg ++ le16 c ++ le16 p) ∧
    create_module_aad file_aad .dictionaryPage rg c p =
      .ok (file_aad ++ [3] ++ le16 rg ++ le16 c) ∧
    create_module_aad file_aad .dictionaryPageHeader rg c p =
      .ok (file_aad ++ [5] ++ le16 rg ++ le16 c) := by
  have h1 : ¬ rg < 0 := by omega
  have h2 : ¬ rg > 32767 := by omega
  have h3 : ¬ c < 0 := by omega
  have h4 : ¬ c > 32767 := by omega
  have h5 : ¬ p < 0 := by omega
  have h6 : ¬ p > 32767 := by omega
  refine ⟨?_, ?_, ?_, ?_⟩ <;>
    simp [create_module_aad, ModuleType.tag, h1, h2, h3, h4, h5, h6]

/-- Witness for claim C1's theorem at concrete in-range ordinals. -/
theorem create_module_aad_page_modules_witness :
    create_module_aad [70] .dataPage 1 0 2 =
      .ok ([70] ++ [2] ++ le16 1 ++ le16 0 ++ le16 2) ∧
    create_module_aad [70] .dataPageHeader 1 0 2 =
      .ok ([70] ++ [4] ++ le16 1 ++ le16 0 ++ le16 2) ∧
    create_module_aad [70] .dictionaryPage 1 0 2 =
      .ok ([70] ++ [3] ++ le16 1 ++ le16 0) ∧
    create_module_aad [70] .dictionaryPageHeader 1 0 2 =
      .ok ([70] ++ [5] ++ le16 1 ++ le16 0) :=
  create_module_aad_page_modules [70] 1 0 2 (by decide) (by decide) (by decide)
    (by decide) (by decide) (by decide)

/-- Claim C8 counterexample: a negative page ordinal is accepted — not
rejected with an error — when the module type is `DictionaryPage`, one of
the page-module shapes. -/
theorem negative_page_ordinal_accepted_for_dictionary :
    create_module_aad [70] .dictionaryPage 0 0 (-5) =
      .ok ([70] ++ [3] ++ le16 0 ++ le16 0) :=
  rfl

/-- Claim C8 (amended): for every module type other than `Footer`,
`create_module_aad` rejects a negative row-group ordinal and a negative
column ordinal; the page-ordinal validation (negative, or exceeding the
`i16` range) applies only to the `DataPage` and `DataPageHeader` shapes —
`DictionaryPage`, `DictionaryPageHeader` and the non-page modules ignore
the page ordinal entirely — and with valid ordinals the call succeeds. -/
theorem create_module_aad_validation (file_aad : List Nat) (mt : ModuleType)
    (hmt : mt ≠ .footer) (rg c p : Int) :
    (rg < 0 → create_module_aad file_aad mt rg c p =
      .error (.wrongRowGroupOrdinal rg)) ∧
    (0 ≤ rg → rg ≤ 32767 → c < 0 → create_module_aad file_aad mt rg c p =
      .error (.wrongColumnOrdinal c)) ∧
    ((mt = .dataPage ∨ mt = .dataPageHeader) →
      0 ≤ rg → rg ≤ 32767 → 0 ≤ c → c ≤ 32767 →
      (p < 0 → create_module_aad file_aad mt rg c p =
        .error (.wrongPageOrdinal p)) ∧
      (p > 32767 → create_module_aad file_aad mt rg c p =
        .error (.tooManyPages p)) ∧
      (0 ≤ p → p ≤ 32767 → create_module_aad file_aad mt rg c p =
        .ok (file_aad ++ [mt.tag] ++ le16 rg ++ le16 c ++ le16 p))) ∧
    (mt ≠ .dataPage → mt ≠ .dataPageHeader →
      0 ≤ rg → rg ≤ 32767 → 0 ≤ c → c ≤ 32767 →
      create_module_aad file_aad mt rg c p =
        .ok (file_aad ++ [mt.tag] ++ le16 rg ++ le16 c)) := by
  have htag0 : ¬ mt.tag = ModuleType.footer.tag := fun h =>
    hmt ((tag_eq_zero_iff mt).mp h)
  refine ⟨?_, ?_, ?_, ?_⟩
  · intro hr
    simp [create_module_aad, htag0, hr]
  · intro h0 h1 hc
    simp [create_module_aad, htag0, hc, show ¬ rg < 0 by omega,
      show ¬ rg > 32767 by omega]
  · intro hdp h0 h1 hc0 hc1
    have hpage : ¬ (mt.tag ≠ ModuleType.dataPageHeader.tag ∧
        mt.tag ≠ ModuleType.dataPage.tag) := by
      rcases hdp with h | h <;> subst h <;> simp [ModuleType.tag]
    refine ⟨?_, ?_, ?_⟩
    · intro hp
      simp [create_module_aad, htag0, hpage, hp, show ¬ rg < 0 by omega,
        show ¬ rg > 32767 by omega, show ¬ c < 0 by omega, show ¬ c > 32767 by omega]
    · intro hp
      simp [create_module_aad, htag0, hpage, hp, show ¬ rg < 0 by omega,
        show ¬ rg > 32767 by omega, show ¬ c < 0 by omega, show ¬ c > 32767 by omega,
        show ¬ p < 0 by omega]
    · intro hp0 hp1
      simp [create_module_aad, htag0, hpage, show ¬ rg < 0 by omega,
        show ¬ rg > 32767 by omega, show ¬ c < 0 by omega, show ¬ c > 32767 by omega,
        show ¬ p < 0 by omega, show ¬ p > 32767 by omega]
  · intro hd1 hd2 h0 h1 hc0 hc1
    have hpage : mt.tag ≠ ModuleType.dataPageHeader.tag ∧
        mt.tag ≠ ModuleType.dataPage.tag :=
      ⟨fun h => hd2 ((tag_eq_dataPageHeader_iff mt).mp h),
       fun h => hd1 ((tag_eq_dataPage_iff mt).mp h)⟩
    simp [create_module_aad, htag0, hpage, show ¬ rg < 0 by omega,
      show ¬ rg > 32767 by omega, show ¬ c < 0 by omega, show ¬ c > 32767 by omega]

/-- Witness for claim C8's theorem: the rejection of a negative row-group
ordinal and the acceptance of fully valid ordinals, at concrete inputs. -/
theorem create_module_aad_validation_witness :
    create_module_aad [70] .columnMetaData (-1) 0 0 =
      .error (.wrongRowGroupOrdinal (-1)) ∧
    create_module_aad [70] .dataPage 1 1 (-3) =
      .error (.wrongPageOrdinal (-3)) ∧
    create_module_aad [70] .columnIndex 1 1 9 =
      .ok ([70] ++ [ModuleType.columnIndex.tag] ++ le16 1 ++ le16 1) :=
  ⟨(create_module_aad_validation [70] .columnMetaData (by decide) (-1) 0 0).1
      (by decide),
   ((create_module_aad_validation [70] .dataPage (by decide) 1 1 (-3)).2.2.1
      (Or.inl rfl) (by decide) (by decide) (by decide) (by decide)).1 (by decide),
   (create_module_aad_validation [70] .columnIndex (by decide) 1 1 9).2.2.2
      (by decide) (by decide) (by decide) (by decide) (by decide) (by decide)⟩

/-- Claim C5: a `CounterNonce` is initialized with a 96-bit-masked random
`start` and `counter ≡ start + 1 (mod 2 ^ 96)`; `advance` fails exactly
when the counter has wrapped back to `start` modulo `2 ^ 96`, and
otherwise emits the low 12 bytes of the counter in little-endian order
(byte `i` being `counter / 256 ^ i % 256`) and increments the counter
modulo `2 ^ 96`; from a fresh `CounterNonce`, `2 ^ 96 - 1` advances
succeed and the next one fails. -/
theorem counter_nonce_lifecycle (seed : Nat) :
    (CounterNonce.new seed).start < 2 ^ 96 ∧
    (CounterNonce.new seed).counter % 2 ^ 96 =
      ((CounterNonce.new seed).start + 1) % 2 ^ 96 ∧
    (∀ t : CounterNonce,
      (t.advance = none ↔ t.counter % 2 ^ 96 = t.start % 2 ^ 96) ∧
      (t.counter % 2 ^ 96 ≠ t.start % 2 ^ 96 →
        t.advance = some (leBytes 12 t.counter,
          ⟨t.start, (t.counter + 1) % 2 ^ 128⟩) ∧
        (leBytes 12 t.counter).length = 12 ∧
        (∀ i, i < 12 → (leBytes 12 t.counter).getD i 0 = t.counter / 256 ^ i % 256) ∧
        ((t.counter + 1) % 2 ^ 128) % 2 ^ 96 = (t.counter + 1) % 2 ^ 96)) ∧
    emitN (2 ^ 96 - 1) (CounterNonce.new seed) =
      some ⟨(CounterNonce.new seed).start, (CounterNonce.new seed).start + 2 ^ 96⟩ ∧
    CounterNonce.advance
      ⟨(CounterNonce.new seed).start, (CounterNonce.new seed).start + 2 ^ 96⟩ = none := by
  have hstart := new_start_lt seed
  have hcounter := new_counter_eq seed
  refine ⟨hstart, by rw [hcounter], ?_, ?_, ?_⟩
  · intro t
    refine ⟨advance_eq_none_iff t, ?_⟩
    intro ht
    exact ⟨advance_eq_some t ht, leBytes_length _ _,
      fun i hi => leBytes_getD _ _ i hi,
      Nat.mod_mod_of_dvd _ (pow_dvd_pow 2 (by norm_num))⟩
  · have hone : (1 : Nat) ≤ 2 ^ 96 := Nat.one_le_two_pow
    have h := emitN_add_state (2 ^ 96 - 1) 0 (CounterNonce.new seed) hstart
      (by rw [hcounter]) (by omega)
    rw [h]
    have harith : (CounterNonce.new seed).start + 1 + 0 + (2 ^ 96 - 1) =
        (CounterNonce.new seed).start + 2 ^ 96 := by omega
    rw [harith]
  · rw [advance_eq_none_iff]
    show ((CounterNonce.new seed).start + 2 ^ 96) % 2 ^ 96 =
      (CounterNonce.new seed).start % 2 ^ 96
    exact Nat.add_mod_right _ _

/-- Witness for claim C5's theorem on a concrete non-wrapped state. -/
theorem counter_nonce_lifecycle_witness :
    (5 : Nat) % 2 ^ 96 ≠ 0 % 2 ^ 96 ∧
    CounterNonce.advance ⟨0, 5⟩ = some (leBytes 12 5, ⟨0, (5 + 1) % 2 ^ 128⟩) :=
  ⟨by decide, (((counter_nonce_lifecycle 0).2.2.1 ⟨0, 5⟩).2 (by decide)).1⟩

/-- Claim C6: with an empty column-key map, every column is reported
encrypted and `get_column_encryptor` succeeds for every path with the
footer key; with a non-empty map, `is_column_encrypted` is exactly map
membership and `get_column_encryptor` succeeds precisely for member paths,
failing with the unencrypted-column error otherwise. -/
theorem column_encryptor_routing (e : FileEncryptor) (path : String) (seed : Nat)
    (hfk : e.properties.footer_key.key.length = 16)
    (hck : ∀ pr ∈ e.properties.column_keys, pr.2.key.length = 16) :
    (e.properties.column_keys = [] →
      e.is_column_encrypted path = true ∧
      e.get_column_encryptor path seed =
        .ok ⟨e.properties.footer_key.key, CounterNonce.new seed⟩) ∧
    (e.properties.column_keys ≠ [] →
      e.is_column_encrypted path =
        (List.lookup path e.properties.column_keys).isSome ∧
      ((List.lookup path e.properties.column_keys).isSome →
        ∃ enc, e.get_column_encryptor path seed = .ok enc) ∧
      (List.lookup path e.properties.column_keys = none →
        e.get_column_encryptor path seed = .error (.unencryptedColumn path))) := by
  constructor
  · intro hempty
    constructor
    · simp [FileEncryptor.is_column_encrypted, hempty]
    · simp [FileEncryptor.get_column_encryptor, FileEncryptor.get_footer_encryptor,
        RingGcmBlockEncryptor.new, hempty, hfk]
  · intro hne
    have hnotempty : e.properties.column_keys.isEmpty = false := by
      cases h : e.properties.column_keys with
      | nil => exact absurd h hne
      | cons a t => simp
    refine ⟨?_, ?_, ?_⟩
    · simp [FileEncryptor.is_column_encrypted, hnotempty]
    · intro hsome
      obtain ⟨k, hk⟩ := Option.isSome_iff_exists.mp hsome
      have hlen := hck _ (lookup_mem hk)
      refine ⟨⟨k.key, CounterNonce.new seed⟩, ?_⟩
      simp [FileEncryptor.get_column_encryptor, hnotempty, hk,
        RingGcmBlockEncryptor.new, hlen]
    · intro hnone
      simp [FileEncryptor.get_column_encryptor, hnotempty, hnone]

/-- Witness for claim C6's theorem: uniform and selective configurations
at concrete paths. -/
theorem column_encryptor_routing_witness :
    (uniformEnc.is_column_encrypted "col_b" = true ∧
      uniformEnc.get_column_encryptor "col_b" 3 =
        .ok ⟨uniformEnc.properties.footer_key.key, CounterNonce.new 3⟩) ∧
    (∃ enc, selectiveEnc.get_column_encryptor "col_a" 3 = .ok enc) ∧
    selectiveEnc.get_column_encryptor "col_b" 3 =
      .error (.unencryptedColumn "col_b") :=
  ⟨(column_encryptor_routing uniformEnc "col_b" 3 (by decide) (by decide)).1 rfl,
   ((column_encryptor_routing selectiveEnc "col_a" 3 (by decide)
      (by decide)).2 (by decide)).2.1 (by decide),
   ((column_encryptor_routing selectiveEnc "col_b" 3 (by decide)
      (by decide)).2 (by decide)).2.2 (by decide)⟩

/-- Claim C7: `get_column_crypto_metadata` yields `EncryptionWithFooterKey`
in uniform mode; in selective mode it yields `EncryptionWithColumnKey`
carrying the column's schema path and the configured key's metadata for
map members, and no crypto metadata for absent columns. -/
theorem column_crypto_metadata_emission (properties : FileEncryptionProperties)
    (column : ColumnDescPtr) :
    (properties.column_keys = [] →
      get_column_crypto_metadata properties column =
        some .encryptionWithFooterKey) ∧
    (properties.column_keys ≠ [] →
      (∀ k, List.lookup column.pathString properties.column_keys = some k →
        get_column_crypto_metadata properties column =
          some (.encryptionWithColumnKey column.pathParts k.key_metadata)) ∧
      (List.lookup column.pathString properties.column_keys = none →
        get_column_crypto_metadata properties column = none)) := by
  constructor
  · intro hempty
    simp [get_column_crypto_metadata, hempty]
  · intro hne
    have hnotempty : properties.column_keys.isEmpty = false := by
      cases h : properties.column_keys with
      | nil => exact absurd h hne
      | cons a t => simp
    constructor
    · intro k hk
      simp [get_column_crypto_metadata, hnotempty, hk]
    · intro hnone
      simp [get_column_crypto_metadata, hnotempty, hnone]

/-- Witness for claim C7's theorem on the concrete configurations. -/
theorem column_crypto_metadata_emission_witness :
    get_column_crypto_metadata uniformProps ⟨["col_a"]⟩ =
      some .encryptionWithFooterKey ∧
    get_column_crypto_metadata selectiveProps ⟨["col_a"]⟩ =
      some (.encryptionWithColumnKey ["col_a"] (some [1])) ∧
    get_column_crypto_metadata selectiveProps ⟨["col_b"]⟩ = none :=
  ⟨(column_crypto_metadata_emission uniformProps ⟨["col_a"]⟩).1 rfl,
   ((column_crypto_metadata_emission selectiveProps ⟨["col_a"]⟩).2
      (by decide)).1 { key := List.replicate 16 7, key_metadata := some [1] }
      (by decide),
   ((column_crypto_metadata_emission selectiveProps ⟨["col_b"]⟩).2
      (by decide)).2 (by decide)⟩

/-- Claim C9 (code behaviour at a concrete input): `FileDecryptor::update_aad`
overwrites the `aad_file_unique` field with a freshly computed module AAD,
so the file-unique AAD of a `FileDecryptor` is not immutable after
construction. -/
theorem update_aad_mutates_aad_file_unique :
    ∃ d2, FileDecryptor.update_aad
        { decryption_properties := { footer_key := some (List.replicate 16 0) }
          footer_decryptor := { key := List.replicate 16 0 }
          aad_file_unique := [70, 73, 76, 69, 1, 2, 3, 4]
          aadPrefixBytes := [] } [] 0 0 .columnMetaData = some d2 ∧
      d2.aad_file_unique = [70, 73, 76, 69, 1, 2, 3, 4, 1, 0, 0, 0, 0] ∧
      d2.aad_file_unique ≠ [70, 73, 76, 69, 1, 2, 3, 4] :=
  ⟨_, rfl, rfl, by decide⟩

/-- Claim C10: `FileDecryptor::new` unconditionally unwraps the optional
footer key of the decryption properties: with the key absent it panics
(produces no value, never an error return), and any successful
construction implies a footer key was present. -/
theorem file_decryptor_new_requires_footer_key (props : FileDecryptionProperties)
    (afu ap : List Nat) :
    (props.footer_key = none → FileDecryptor.new props afu ap = none) ∧
    (∀ d, FileDecryptor.new props afu ap = some d →
      ∃ k, props.footer_key = some k) := by
  constructor
  · intro h
    simp [FileDecryptor.new, h]
  · intro d hd
    cases h : props.footer_key with
    | none =>
      rw [FileDecryptor.new] at hd
      simp [h] at hd
    | some k => exact ⟨k, rfl⟩

/-- Witness for claim C10's theorem: a keyless properties value makes
construction panic. -/
theorem file_decryptor_new_requires_footer_key_witness :
    FileDecryptor.new ⟨none⟩ [1] [] = none :=
  (file_decryptor_new_requires_footer_key ⟨none⟩ [1] []).1 rfl

end ParquetCrypto
